import Mathlib

/-!
# Verification of the HTML message-body deserializer

A shallow embedding of the deserializer (`Deserializer` / `parseHTMLBody`)
that converts an untrusted HTML tree into a structured message-body document,
together with proofs of the specification claims about it.

The HTML tree produced by the external tree-walker adapter is modelled as the
inductive `HNode`; the external collaborators (plain-text linkifier,
mention-link recognizer, media resolver) are parameters collected in the
structure `Externals`.  JavaScript-specific behaviour (attribute lookup
returning `undefined`, the semantics of `parseInt`, falsiness of `0`, `NaN`,
`""`, `null`) is made explicit with `Option` and with `jsParseInt`.
-/

namespace HtmlDeserializer

/-- An element's attribute list as exposed by the tree-walker adapter:
ordered (name, value) pairs; lookup returns the first match. -/
abbrev Attrs := List (String × String)

/-- The parsed HTML tree handed to the deserializer by the tree-walker
adapter: a node is a text node carrying its literal content, or an element
carrying its (case-normalized, upper-case) tag name, its attributes and its
child nodes. -/
inductive HNode where
  | text (s : String)
  | elem (tag : String) (attrs : Attrs) (children : List HNode)

/-- Source `getAttributeValue`: read a named attribute; `none` models the
JavaScript `undefined` returned when the attribute is absent. -/
def getAttr (attrs : Attrs) (name : String) : Option String :=
  (attrs.find? (fun p => p.fst == name)).map Prod.snd

/-- Source `getNodeElementName`: the tag of an element node; `none` (JavaScript
`undefined`) for a text node. -/
def elementName : HNode → Option String
  | .text _ => none
  | .elem tag _ _ => some tag

/-- Source `getChildNodes`: a text node has no children. -/
def childrenOf : HNode → List HNode
  | .text _ => []
  | .elem _ _ children => children

/-- Source `isElementNode`. -/
def isElementNode : HNode → Bool
  | .text _ => false
  | .elem _ _ _ => true

/-- Source `isTextNode`. -/
def isTextNode : HNode → Bool
  | .text _ => true
  | .elem _ _ _ => false

/-- The attribute list of a node (a text node exposes no attributes). -/
def attrsOf : HNode → Attrs
  | .text _ => []
  | .elem _ attrs _ => attrs

/-- The whitespace characters skipped by JavaScript `parseInt` before the
number (the common ASCII white space set plus no-break space). -/
def isJsSpace (c : Char) : Bool :=
  c = ' ' || c = '\t' || c = '\n' || c = '\r' || c = '\x0b' || c = '\x0c' || c = ' '

/-- Value of a decimal digit, `none` for any other character. -/
def decDigit (c : Char) : Option Nat :=
  if '0' ≤ c ∧ c ≤ '9' then some (c.toNat - '0'.toNat) else none

/-- Value of a hexadecimal digit, `none` for any other character. -/
def hexDigit (c : Char) : Option Nat :=
  if '0' ≤ c ∧ c ≤ '9' then some (c.toNat - '0'.toNat)
  else if 'a' ≤ c ∧ c ≤ 'f' then some (c.toNat - 'a'.toNat + 10)
  else if 'A' ≤ c ∧ c ≤ 'F' then some (c.toNat - 'A'.toNat + 10)
  else none

/-- Accumulate the longest prefix of digits (under digit reader `f`) into a
number with base `base`, starting from `acc`. -/
def takeDigits (f : Char → Option Nat) (base : Nat) : List Char → Nat → Nat
  | [], acc => acc
  | c :: rest, acc =>
    match f c with
    | some d => takeDigits f base rest (acc * base + d)
    | none => acc

/-- JavaScript `parseInt(s)` (no radix argument): skip leading whitespace,
read an optional sign, detect a `0x`/`0X` hexadecimal prefix, then read the
longest prefix of digits; `none` models the `NaN` result when no digit is
found. -/
def jsParseInt (s : String) : Option Int :=
  let cs := s.toList.dropWhile isJsSpace
  let signAndRest : Int × List Char :=
    match cs with
    | '-' :: rest => (-1, rest)
    | '+' :: rest => (1, rest)
    | _ => (1, cs)
  let sign := signAndRest.fst
  let body := signAndRest.snd
  match body with
  | '0' :: 'x' :: rest =>
    match rest with
    | c :: _ =>
      match hexDigit c with
      | some _ => some (sign * (takeDigits hexDigit 16 rest 0 : Nat))
      | none => none
    | [] => none
  | '0' :: 'X' :: rest =>
    match rest with
    | c :: _ =>
      match hexDigit c with
      | some _ => some (sign * (takeDigits hexDigit 16 rest 0 : Nat))
      | none => none
    | [] => none
  | c :: _ =>
    match decDigit c with
    | some _ => some (sign * (takeDigits decDigit 10 body 0 : Nat))
    | none => none
  | [] => none

/-- JavaScript `parseInt(x)` where `x` may be `undefined` (an absent
attribute): `parseInt(undefined)` is `NaN`. -/
def jsParseIntOpt : Option String → Option Int
  | none => none
  | some s => jsParseInt s

/-- The source expression `parseInt(x) || 1`: `NaN` and `0` are falsy, so
the default `1` is used when parsing fails or yields `0`. -/
def intOr1 (v : Option String) : Int :=
  match jsParseIntOpt v with
  | some n => if n = 0 then 1 else n
  | none => 1

/-- The source expression `parseInt(x) || null`: `NaN` and `0` are falsy,
so the result is absent when parsing fails or yields `0`. -/
def intOrNull (v : Option String) : Option Int :=
  match jsParseIntOpt v with
  | some n => if n = 0 then none else some n
  | none => none

/-- The message-body part hierarchy (`TextPart`, `FormatPart`,
`NewLinePart`, `RulePart`, `LinkPart`, `PillPart`, `ImagePart`,
`HeaderBlock`, `ListBlock`, `CodeBlock`). -/
inductive Part where
  | text (s : String)
  | format (tag : String) (children : List Part)
  | newline
  | rule
  | link (href : Option String) (children : List Part)
  | pill (userId : String) (href : Option String) (children : List Part)
  | image (url : String) (width : Option Int) (height : Option Int)
      (alt : Option String) (title : Option String)
  | header (level : Int) (children : List Part)
  | list (start : Option Int) (items : List (List Part))
  | codeBlock (language : String) (text : String)

/-- Character-wise lower-casing of a string (`String.toLowerCase`). -/
def jsToLower (s : String) : String :=
  String.mk (s.data.map Char.toLower)

/-- Modelled from the spec: the `FormatPart` constructor lives in the
document-model module (`MessageBody`), which is not among the deserializer
sources; per the spec's data model and examples a paragraph element (tag
name `"P"` from the case-normalizing tree walker) is emitted as
`Format("p", ...)`, i.e. the constructor normalizes the tag to lower case. -/
def FormatPart (tag : String) (children : List Part) : Part :=
  Part.format (jsToLower tag) children

/-- Source `HeaderBlock`: stores the numeric heading level and the children. -/
def HeaderBlock (level : Int) (children : List Part) : Part :=
  Part.header level children

/-- Result of the mention-link recognizer `parsePillLink`: an object that
may or may not carry a `userId` field. -/
structure PillData where
  userId : Option String

/-- The external collaborators the deserializer is parameterized by:
 * `linkifyTokens` — the plain-text linkifier, as the ordered token list
   `(literalSubstring, isLink)` its callback interface produces;
 * `parsePillLink` — the mention-link recognizer;
 * `mxcUrl` — the media resolver (`mediaRepository.mxcUrl`), `none` when
   the `src` is not scoped to the trusted media repository. -/
structure Externals where
  linkifyTokens : String → List (String × Bool)
  parsePillLink : String → Option PillData
  mxcUrl : String → Option String

/-- Source `Deserializer.parseLink`: read `href`; JavaScript `href &&
parsePillLink(href)` short-circuits on an absent or empty href, and
`pillData && pillData.userId` requires a truthy (present, non-empty)
user id for a pill. -/
def parseLink (env : Externals) (node : HNode) (children : List Part) : Part :=
  let href := getAttr (attrsOf node) "href"
  let pillData : Option PillData :=
    match href with
    | some h => if h = "" then none else env.parsePillLink h
    | none => none
  match pillData with
  | some pd =>
    match pd.userId with
    | some uid =>
      if uid = "" then Part.link href children else Part.pill uid href children
    | none => Part.link href children
  | none => Part.link href children

/-- Source `Deserializer._parseTextParts`: a text node is linkified; each token
becomes a `TextPart`, or a `LinkPart` wrapping a `TextPart`, in token
order.  `none` corresponds to the `false` return on a non-text node. -/
def parseTextParts (env : Externals) : HNode → Option (List Part)
  | .text s =>
    some ((env.linkifyTokens s).map (fun t =>
      if t.snd then Part.link (some t.fst) [Part.text t.fst] else Part.text t.fst))
  | .elem _ _ _ => none

mutual

/-- The flattened literal text of a node (`node.textContent`). -/
def textContent : HNode → String
  | .text s => s
  | .elem _ _ children => textContentList children

/-- The concatenated text content of a node list. -/
def textContentList : List HNode → String
  | [] => ""
  | n :: rest => textContent n ++ textContentList rest

end

/-- Accumulates the current split field (reversed) while walking the
characters of the string being split on spaces. -/
def splitSpaceAux (cur : List Char) : List Char → List String
  | [] => [String.mk cur.reverse]
  | c :: rest =>
    if c = ' ' then String.mk cur.reverse :: splitSpaceAux [] rest
    else splitSpaceAux (c :: cur) rest

/-- JavaScript `s.split(" ")`: split on every single space, keeping empty
fields (so `"".split(" ")` is `[""]`). -/
def jsSplitSpace (s : String) : List String :=
  splitSpaceAux [] s.data

/-- JavaScript `s.startsWith(p)`. -/
def jsStartsWith (s p : String) : Bool :=
  p.data.isPrefixOf s.data

/-- JavaScript `s.substring(n)`. -/
def jsSubstringFrom (s : String) (n : Nat) : String :=
  String.mk (s.data.drop n)

/-- The class-token scan of `parseCodeBlock`: the first space-separated
token that starts with `language-` but not with `language-_` yields the
language (the token minus the nine-character prefix); otherwise `""`. -/
def findLanguage : List String → String
  | [] => ""
  | clname :: rest =>
    if jsStartsWith clname "language-" && !jsStartsWith clname "language-_" then
      jsSubstringFrom clname 9
    else findLanguage rest

/-- Source `Deserializer.parseCodeBlock`: look only at the first child; unless it
is a `CODE` element the result is `null`; otherwise emit a `CodeBlock`
with the language extracted from the code element's `class` attribute
(defaulted to `""` when absent) and the code element's flattened text. -/
def parseCodeBlock (node : HNode) : Option Part :=
  match (childrenOf node).head? with
  | some codeNode =>
    if elementName codeNode = some "CODE" then
      let cl := (getAttr (attrsOf codeNode) "class").getD ""
      let language := findLanguage (jsSplitSpace cl)
      some (Part.codeBlock language (textContent codeNode))
    else none
  | none => none

/-- Source `Deserializer.parseImage`: read `src` (defaulted to `""` when absent),
resolve it through the media resolver; a falsy URL (`null` or `""`) yields
`null`; otherwise emit an `ImagePart` with best-effort dimensions
(`parseInt(...) || null`) and the raw optional `alt`/`title` strings. -/
def parseImage (env : Externals) (node : HNode) : Option Part :=
  let src := (getAttr (attrsOf node) "src").getD ""
  match env.mxcUrl src with
  | some url =>
    if url = "" then none
    else
      some (Part.image url
        (intOrNull (getAttr (attrsOf node) "width"))
        (intOrNull (getAttr (attrsOf node) "height"))
        (getAttr (attrsOf node) "alt")
        (getAttr (attrsOf node) "title"))
  | none => none

/-- The tags handled as plain inline wrappers (`basicInline`). -/
def basicInline : List String := ["EM", "STRONG", "CODE", "DEL", "SPAN"]

/-- The tags handled as plain any-content wrappers (`basicBlock`). -/
def basicBlock : List String := ["DIV", "BLOCKQUOTE"]

mutual

/-- Size of a node, used as the termination measure of the traversal. -/
def nodeSize : HNode → Nat
  | .text _ => 1
  | .elem _ _ children => 1 + listSize children

/-- Size of a node list. -/
def listSize : List HNode → Nat
  | [] => 0
  | n :: rest => nodeSize n + listSize rest

end

theorem nodeSize_pos (n : HNode) : 0 < nodeSize n := by
  cases n <;> simp [nodeSize]

theorem listSize_childrenOf_lt (n : HNode) : listSize (childrenOf n) < nodeSize n := by
  cases n <;> simp [childrenOf, nodeSize, listSize]

theorem termGoalElemChildren {tag : String} {attrs : Attrs} {children : List HNode} :
    4 * listSize children + 3 < 4 * nodeSize (HNode.elem tag attrs children) := by
  simp [nodeSize]; omega

theorem termGoalElemChildren1 {tag : String} {attrs : Attrs} {children : List HNode} :
    4 * listSize children + 3 < 4 * nodeSize (HNode.elem tag attrs children) + 1 := by
  simp [nodeSize]; omega

theorem termGoalRest3 {n : HNode} {rest : List HNode} :
    4 * listSize rest + 3 < 4 * listSize (n :: rest) + 3 := by
  have := nodeSize_pos n; simp [listSize]; omega

theorem termGoalRest0 {n : HNode} {rest : List HNode} :
    4 * listSize rest < 4 * listSize (n :: rest) := by
  have := nodeSize_pos n; simp [listSize]; omega

theorem termGoalHead1 {n : HNode} {rest : List HNode} :
    4 * nodeSize n + 1 < 4 * listSize (n :: rest) + 3 := by
  simp [listSize]; omega

theorem termGoalHead2 {n : HNode} {rest : List HNode} :
    4 * nodeSize n + 2 < 4 * listSize (n :: rest) + 3 := by
  simp [listSize]; omega

theorem termGoalChildren3 {n : HNode} {rest : List HNode} :
    4 * listSize (childrenOf n) + 3 < 4 * listSize (n :: rest) + 3 := by
  have := listSize_childrenOf_lt n; simp [listSize]; omega

theorem termGoalChildren0 {n : HNode} {rest : List HNode} :
    4 * listSize (childrenOf n) + 3 < 4 * listSize (n :: rest) := by
  have := listSize_childrenOf_lt n; simp [listSize]; omega

theorem termGoalChildrenNode {n : HNode} :
    4 * listSize (childrenOf n) < 4 * nodeSize n := by
  have := listSize_childrenOf_lt n; omega

theorem termGoalRestPlain {n : HNode} {rest : List HNode} :
    listSize rest < listSize (n :: rest) := by
  have := nodeSize_pos n; simp [listSize]; omega

theorem termGoalChildrenPlain {n : HNode} {rest : List HNode} :
    listSize (childrenOf n) < listSize (n :: rest) := by
  have := listSize_childrenOf_lt n; simp [listSize]; omega

theorem termGoalHeadAny {n : HNode} {rest : List HNode} :
    4 * nodeSize n < 4 * listSize (n :: rest) + 2 := by
  simp [listSize]; omega

theorem termGoalHeadAny1 {n : HNode} {rest : List HNode} :
    4 * nodeSize n < 4 * listSize (n :: rest) + 1 := by
  simp [listSize]; omega

mutual

/-- Source `Deserializer.parseInlineElement`: once a node is known to be an
element, attempt to interpret it as an inline element (`A`, `BR`, or one
of `basicInline`); `none` when the element is not inline or not allowed. -/
def parseInlineElement (env : Externals) (node : HNode) : Option Part :=
  match node with
  | .text _ => none
  | .elem tag attrs children =>
    if tag = "A" then
      let inlines := parseInlineNodes env children
      some (parseLink env (HNode.elem tag attrs children) inlines)
    else if tag = "BR" then
      some Part.newline
    else if basicInline.contains tag then
      some (FormatPart tag (parseInlineNodes env children))
    else none
termination_by 4 * nodeSize node
decreasing_by
  all_goals simp_wf
  all_goals
    first
    | omega
    | apply termGoalElemChildren
    | apply termGoalElemChildren1
    | apply termGoalRest3
    | apply termGoalRest0
    | apply termGoalHead1
    | apply termGoalHead2
    | apply termGoalChildren3
    | apply termGoalChildren0
    | apply termGoalChildrenNode
    | apply termGoalRestPlain
    | apply termGoalChildrenPlain
    | apply termGoalHeadAny
    | apply termGoalHeadAny1
    | apply listSize_childrenOf_lt

/-- Source `Deserializer.parseInlineNode`: attempt to interpret a node as inline;
`none` for text nodes and for elements that are not inline or not
allowed. -/
def parseInlineNode (env : Externals) (node : HNode) : Option Part :=
  if isElementNode node then parseInlineElement env node else none
termination_by 4 * nodeSize node + 1
decreasing_by
  all_goals simp_wf
  all_goals
    first
    | omega
    | apply termGoalElemChildren
    | apply termGoalElemChildren1
    | apply termGoalRest3
    | apply termGoalRest0
    | apply termGoalHead1
    | apply termGoalHead2
    | apply termGoalChildren3
    | apply termGoalChildren0
    | apply termGoalChildrenNode
    | apply termGoalRestPlain
    | apply termGoalChildrenPlain
    | apply termGoalHeadAny
    | apply termGoalHeadAny1
    | apply listSize_childrenOf_lt

/-- Source `Deserializer.parseList`: for an `OL` element the start index is
`parseInt(start-attribute) || 1`, for any other (i.e. `UL`) it is `null`;
only `LI` children contribute, each item being its children parsed in any
(mixed) context. -/
def parseList (env : Externals) (node : HNode) : Part :=
  let start : Option Int :=
    if elementName node = some "OL" then
      some (intOr1 (getAttr (attrsOf node) "start"))
    else none
  Part.list start (parseListItems env (childrenOf node))
termination_by 4 * nodeSize node
decreasing_by
  all_goals simp_wf
  all_goals
    first
    | omega
    | apply termGoalElemChildren
    | apply termGoalElemChildren1
    | apply termGoalRest3
    | apply termGoalRest0
    | apply termGoalHead1
    | apply termGoalHead2
    | apply termGoalChildren3
    | apply termGoalChildren0
    | apply termGoalChildrenNode
    | apply termGoalRestPlain
    | apply termGoalChildrenPlain
    | apply termGoalHeadAny
    | apply termGoalHeadAny1
    | apply listSize_childrenOf_lt

/-- The child loop of `Deserializer.parseList`: children whose element
name is not `LI` are skipped; each kept item is parsed with
`parseAnyNodes`. -/
def parseListItems (env : Externals) : List HNode → List (List Part)
  | [] => []
  | child :: rest =>
    if elementName child = some "LI" then
      parseAnyNodes env (childrenOf child) :: parseListItems env rest
    else
      parseListItems env rest
termination_by nodes => 4 * listSize nodes
decreasing_by
  all_goals simp_wf
  all_goals
    first
    | omega
    | apply termGoalElemChildren
    | apply termGoalElemChildren1
    | apply termGoalRest3
    | apply termGoalRest0
    | apply termGoalHead1
    | apply termGoalHead2
    | apply termGoalChildren3
    | apply termGoalChildren0
    | apply termGoalChildrenNode
    | apply termGoalRestPlain
    | apply termGoalChildrenPlain
    | apply termGoalHeadAny
    | apply termGoalHeadAny1
    | apply listSize_childrenOf_lt

/-- Source `Deserializer.parseBlockElement`: once a node is known to be an
element, attempt to interpret it as a block element; `none` when the
element is not a block or not allowed. -/
def parseBlockElement (env : Externals) (node : HNode) : Option Part :=
  match node with
  | .text _ => none
  | .elem tag attrs children =>
    if tag = "H1" ∨ tag = "H2" ∨ tag = "H3" ∨ tag = "H4" ∨ tag = "H5" ∨ tag = "H6" then
      let inlines := parseInlineNodes env children
      some (HeaderBlock ((jsParseInt (String.mk ((tag.toList.drop 1).take 1))).getD 0) inlines)
    else if tag = "UL" ∨ tag = "OL" then
      some (parseList env (HNode.elem tag attrs children))
    else if tag = "PRE" then
      parseCodeBlock (HNode.elem tag attrs children)
    else if tag = "HR" then
      some Part.rule
    else if tag = "IMG" then
      parseImage env (HNode.elem tag attrs children)
    else if tag = "P" then
      let inlines := parseInlineNodes env children
      some (FormatPart tag inlines)
    else if basicBlock.contains tag then
      let blocks := parseAnyNodes env children
      some (FormatPart tag blocks)
    else none
termination_by 4 * nodeSize node + 1
decreasing_by
  all_goals simp_wf
  all_goals
    first
    | omega
    | apply termGoalElemChildren
    | apply termGoalElemChildren1
    | apply termGoalRest3
    | apply termGoalRest0
    | apply termGoalHead1
    | apply termGoalHead2
    | apply termGoalChildren3
    | apply termGoalChildren0
    | apply termGoalChildrenNode
    | apply termGoalRestPlain
    | apply termGoalChildrenPlain
    | apply termGoalHeadAny
    | apply termGoalHeadAny1
    | apply listSize_childrenOf_lt

/-- Source `Deserializer.parseBlockNode`: attempt to parse a node as a block;
`none` for text nodes and for elements that are not block elements. -/
def parseBlockNode (env : Externals) (node : HNode) : Option Part :=
  if isElementNode node then parseBlockElement env node else none
termination_by 4 * nodeSize node + 2
decreasing_by
  all_goals simp_wf
  all_goals
    first
    | omega
    | apply termGoalElemChildren
    | apply termGoalElemChildren1
    | apply termGoalRest3
    | apply termGoalRest0
    | apply termGoalHead1
    | apply termGoalHead2
    | apply termGoalChildren3
    | apply termGoalChildren0
    | apply termGoalChildrenNode
    | apply termGoalRestPlain
    | apply termGoalChildrenPlain
    | apply termGoalHeadAny
    | apply termGoalHeadAny1
    | apply listSize_childrenOf_lt

/-- Source `Deserializer.parseInlineNodes` (with the `_parseInlineNodes`
accumulator made functional): text nodes are linkified, inline elements
produce one part each, and any other node — block or unrecognized — is
replaced by its children parsed in the same inline context, spliced in
place. -/
def parseInlineNodes (env : Externals) : List HNode → List Part
  | [] => []
  | node :: rest =>
    match parseTextParts env node with
    | some parts => parts ++ parseInlineNodes env rest
    | none =>
      match parseInlineNode env node with
      | some p => p :: parseInlineNodes env rest
      | none => parseInlineNodes env (childrenOf node) ++ parseInlineNodes env rest
termination_by nodes => 4 * listSize nodes + 3
decreasing_by
  all_goals simp_wf
  all_goals
    first
    | omega
    | apply termGoalElemChildren
    | apply termGoalElemChildren1
    | apply termGoalRest3
    | apply termGoalRest0
    | apply termGoalHead1
    | apply termGoalHead2
    | apply termGoalChildren3
    | apply termGoalChildren0
    | apply termGoalChildrenNode
    | apply termGoalRestPlain
    | apply termGoalChildrenPlain
    | apply termGoalHeadAny
    | apply termGoalHeadAny1
    | apply listSize_childrenOf_lt

/-- Source `Deserializer.parseAnyNodes` (with the `_parseAnyNodes` accumulator
made functional): text nodes are linkified, a node is tried first as
inline then as block (`parseInlineNode(node) || parseBlockNode(node)`),
and an unrecognized node is replaced by its children parsed in the same
mixed context, spliced in place. -/
def parseAnyNodes (env : Externals) : List HNode → List Part
  | [] => []
  | node :: rest =>
    match parseTextParts env node with
    | some parts => parts ++ parseAnyNodes env rest
    | none =>
      match (parseInlineNode env node).orElse (fun _ => parseBlockNode env node) with
      | some p => p :: parseAnyNodes env rest
      | none => parseAnyNodes env (childrenOf node) ++ parseAnyNodes env rest
termination_by nodes => 4 * listSize nodes + 3
decreasing_by
  all_goals simp_wf
  all_goals
    first
    | omega
    | apply termGoalElemChildren
    | apply termGoalElemChildren1
    | apply termGoalRest3
    | apply termGoalRest0
    | apply termGoalHead1
    | apply termGoalHead2
    | apply termGoalChildren3
    | apply termGoalChildren0
    | apply termGoalChildrenNode
    | apply termGoalRestPlain
    | apply termGoalChildrenPlain
    | apply termGoalHeadAny
    | apply termGoalHeadAny1
    | apply listSize_childrenOf_lt

end

/-- The document: the raw source string kept verbatim, plus the produced
part sequence (`MessageBody`). -/
structure MessageBody where
  sourceString : String
  parts : List Part

/-- Source `parseHTMLBody`: the platform parses the raw HTML into root nodes
(modelled as the external function `platformParse`), the deserializer
walks them in mixed context, and the document wraps the original string
together with the produced parts. -/
def parseHTMLBody (platformParse : String → List HNode) (env : Externals)
    (html : String) : MessageBody :=
  let rootNodes := platformParse html
  ⟨html, parseAnyNodes env rootNodes⟩

/-! ## Concrete external environments

Used by the witnesses and counterexamples: a linkifier that returns its
whole input as a single non-link token, together with recognizers and
resolvers of varying behaviour. -/

/-- Externals that recognize and resolve nothing. -/
def env0 : Externals :=
  { linkifyTokens := fun s => [(s, false)]
    parsePillLink := fun _ => none
    mxcUrl := fun _ => none }

/-- Externals whose media resolver resolves exactly the reference
`mxc://a`. -/
def envImg : Externals :=
  { env0 with mxcUrl := fun s => if s = "mxc://a" then some ("resolved-" ++ s) else none }

/-- Externals whose mention-link recognizer recognizes exactly the href
`https://matrix.to/#/@a:b` as the user `@a:b`. -/
def envPill : Externals :=
  { env0 with parsePillLink := fun h =>
      if h = "https://matrix.to/#/@a:b" then some ⟨some "@a:b"⟩ else none }

/-! ## C1 — deserialization is total -/

/-- C1: For every input tree (however malformed or unsafe its markup) and
every media resolver (indeed every choice of external collaborators),
deserialization (`parseHTMLBody` via `parseAnyNodes`) completes and
returns a document.  In this embedding "never raises" is the totality of
`parseHTMLBody` — it was accepted by the termination checker as a total
function on all trees — and the theorem exhibits the returned document for
every platform parse, every externals choice and every raw string. -/
theorem parseHTMLBody_total (platformParse : String → List HNode)
    (env : Externals) (html : String) :
    ∃ d : MessageBody, parseHTMLBody platformParse env html = d ∧
      d.sourceString = html ∧ d.parts = parseAnyNodes env (platformParse html) :=
  ⟨⟨html, parseAnyNodes env (platformParse html)⟩, rfl, rfl, rfl⟩

/-! ## C9 — paragraphs become lower-case `"p"` format parts -/

/-- C9: In block context a paragraph element — whose tag name arrives from
the case-normalizing tree walker as the upper-case `"P"` — is emitted as a
`Format` part with the lower-case tag `"p"`, wrapping its children
classified in inline context. -/
theorem paragraph_emits_lowercase_p (env : Externals) (attrs : Attrs)
    (children : List HNode) :
    parseBlockNode env (.elem "P" attrs children) =
      some (Part.format "p" (parseInlineNodes env children)) := by
  have hp : jsToLower "P" = "p" := by decide
  simp only [parseBlockNode, parseBlockElement, isElementNode, FormatPart, hp, if_true]
  rw [if_neg (by decide), if_neg (by decide), if_neg (by decide), if_neg (by decide),
    if_neg (by decide)]

/-! ## Lists: C8 and C4 -/

theorem parseBlockNode_UL (env : Externals) (attrs : Attrs) (children : List HNode) :
    parseBlockNode env (.elem "UL" attrs children) =
      some (parseList env (.elem "UL" attrs children)) := by
  simp only [parseBlockNode, parseBlockElement, isElementNode, if_true]
  rw [if_neg (by decide), if_pos (by decide)]

theorem parseBlockNode_OL (env : Externals) (attrs : Attrs) (children : List HNode) :
    parseBlockNode env (.elem "OL" attrs children) =
      some (parseList env (.elem "OL" attrs children)) := by
  simp only [parseBlockNode, parseBlockElement, isElementNode, if_true]
  rw [if_neg (by decide), if_pos (by decide)]

theorem parseList_UL (env : Externals) (attrs : Attrs) (children : List HNode) :
    parseList env (.elem "UL" attrs children) =
      Part.list none (parseListItems env children) := by
  simp only [parseList, elementName, attrsOf, childrenOf]
  rw [if_neg (by decide)]

theorem parseList_OL (env : Externals) (attrs : Attrs) (children : List HNode) :
    parseList env (.elem "OL" attrs children) =
      Part.list (some (intOr1 (getAttr attrs "start"))) (parseListItems env children) := by
  simp only [parseList, elementName, attrsOf, childrenOf]
  rw [if_pos (by decide)]

/-- C8: Only direct children of a list element that are `LI` elements are
kept — every other child, text and whitespace nodes included, is silently
dropped at that level — and each kept item is its children classified in
mixed (any) context, one item sequence per list item in document order;
this holds for both the unordered and the ordered variant. -/
theorem list_keeps_only_li_items (env : Externals) (attrs : Attrs)
    (children : List HNode) :
    parseListItems env children = children.filterMap (fun c =>
      if elementName c = some "LI" then some (parseAnyNodes env (childrenOf c))
      else none) ∧
    parseBlockNode env (.elem "UL" attrs children) =
      some (Part.list none (parseListItems env children)) ∧
    parseBlockNode env (.elem "OL" attrs children) =
      some (Part.list (some (intOr1 (getAttr attrs "start")))
        (parseListItems env children)) := by
  refine ⟨?_, ?_, ?_⟩
  · induction children with
    | nil => simp [parseListItems]
    | cons c rest ih =>
      by_cases hc : elementName c = some "LI"
      · simp [parseListItems, hc, ih]
      · simp [parseListItems, hc, ih]
  · rw [parseBlockNode_UL, parseList_UL]
  · rw [parseBlockNode_OL, parseList_OL]

/-- C4, counterexample to the claim as stated: the `start` attribute value
`"0"` parses to the integer `0` (it is neither missing nor unparsable),
yet the emitted starting index is the default `1`, because the source
computes `parseInt(...) || 1` and `0` is falsy in JavaScript. -/
theorem list_start_zero_counterexample :
    parseBlockNode env0 (.elem "OL" [("start", "0")] []) =
      some (Part.list (some 1) []) ∧
    jsParseInt "0" = some 0 ∧ (1 : Int) ≠ 0 := by
  refine ⟨?_, by decide, by decide⟩
  rw [parseBlockNode_OL, parseList_OL]
  have h1 : intOr1 (getAttr [("start", "0")] "start") = 1 := by decide
  have h2 : parseListItems env0 [] = [] := by simp [parseListItems]
  rw [h1, h2]

/-- The amended start-index rule: the integer parsed (JavaScript
`parseInt`) from the `start` attribute, defaulting to `1` when the
attribute is missing, unparsable, or parses to the falsy integer `0`. -/
def specOrderedStart (v : Option String) : Int :=
  match v with
  | none => 1
  | some s =>
    match jsParseInt s with
    | none => 1
    | some n => if n = 0 then 1 else n

theorem specOrderedStart_eq_intOr1 (v : Option String) :
    specOrderedStart v = intOr1 v := by
  cases v with
  | none => simp [specOrderedStart, intOr1, jsParseIntOpt]
  | some s =>
    simp only [specOrderedStart, intOr1, jsParseIntOpt]
    cases jsParseInt s <;> simp

/-- C4 (amended): For every ordered-list element the `List` part's starting
index is the integer parsed from its `start` attribute, defaulting to `1`
when the attribute is missing, unparsable, or parses to the integer `0`
(which is falsy in JavaScript, so `start="0"` also yields the default `1`;
a leading-digit value like `"1A"` parses to that digit); for every
unordered-list element the starting index is absent regardless of any
`start` attribute present. -/
theorem ordered_list_start_index (env : Externals) (attrs : Attrs)
    (children : List HNode) :
    parseBlockNode env (.elem "OL" attrs children) =
      some (Part.list (some (specOrderedStart (getAttr attrs "start")))
        (parseListItems env children)) ∧
    parseBlockNode env (.elem "UL" attrs children) =
      some (Part.list none (parseListItems env children)) := by
  refine ⟨?_, ?_⟩
  · rw [parseBlockNode_OL, parseList_OL, specOrderedStart_eq_intOr1]
  · rw [parseBlockNode_UL, parseList_UL]

/-! ## C3 — unknown elements are transparent -/

/-- The tags for which the block-context dispatch has a rule. -/
def blockTags : List String :=
  ["H1", "H2", "H3", "H4", "H5", "H6", "UL", "OL", "PRE", "HR", "IMG", "P"] ++ basicBlock

/-- C3: An element whose tag matches no rule of the current traversal
context contributes no part of its own: its children are classified under
the same context that was active when it was encountered, and their parts
are spliced into the output at that position.  In inline context this is
any tag outside the anchor, line-break and basic-inline rules; in mixed
(any) context additionally outside the block rules. -/
theorem unknown_tag_transparent (env : Externals) (tag : String) (attrs : Attrs)
    (ch rest : List HNode) (hInline : tag ∉ ["A", "BR"] ++ basicInline) :
    parseInlineNodes env (.elem tag attrs ch :: rest) =
      parseInlineNodes env ch ++ parseInlineNodes env rest ∧
    (tag ∉ blockTags →
      parseAnyNodes env (.elem tag attrs ch :: rest) =
        parseAnyNodes env ch ++ parseAnyNodes env rest) := by
  simp only [basicInline, List.mem_append, List.mem_cons, List.not_mem_nil,
    or_false, not_or] at hInline
  obtain ⟨⟨hA, hBR⟩, hEM, hSTRONG, hCODE, hDEL, hSPAN⟩ := hInline
  have hie : parseInlineNode env (.elem tag attrs ch) = none := by
    simp [parseInlineNode, parseInlineElement, isElementNode, basicInline,
      hA, hBR, hEM, hSTRONG, hCODE, hDEL, hSPAN]
  refine ⟨?_, fun hBlock => ?_⟩
  · simp only [parseInlineNodes, parseTextParts, hie]
    simp [childrenOf]
  · simp only [blockTags, basicBlock, List.mem_append, List.mem_cons,
      List.not_mem_nil, or_false, not_or] at hBlock
    obtain ⟨⟨h1, h2, h3, h4, h5, h6, hUL, hOL, hPRE, hHR, hIMG, hP⟩, hDIV, hBQ⟩ := hBlock
    have hbe : parseBlockNode env (.elem tag attrs ch) = none := by
      simp [parseBlockNode, parseBlockElement, isElementNode, basicBlock,
        h1, h2, h3, h4, h5, h6, hUL, hOL, hPRE, hHR, hIMG, hP, hDIV, hBQ]
    simp only [parseAnyNodes, parseTextParts, hie, hbe]
    simp [childrenOf, Option.orElse]

/-- Witness for C3 at the concrete unknown tag `DFN`. -/
theorem unknown_tag_transparent_witness :
    parseInlineNodes env0 [HNode.elem "DFN" [] [HNode.text "Hello"]] =
      parseInlineNodes env0 [HNode.text "Hello"] ++ parseInlineNodes env0 [] ∧
    parseAnyNodes env0 [HNode.elem "DFN" [] [HNode.text "Hello"]] =
      parseAnyNodes env0 [HNode.text "Hello"] ++ parseAnyNodes env0 [] := by
  have h := unknown_tag_transparent env0 "DFN" [] [HNode.text "Hello"] [] (by decide)
  exact ⟨h.1, h.2 (by decide)⟩

/-! ## C5 — preformatted blocks -/

/-- Whether the first child node of a node list is a `CODE` element. -/
def firstChildIsCode (children : List HNode) : Bool :=
  match children.head? with
  | some c => elementName c == some "CODE"
  | none => false

/-- The spec's wording of the language-label extraction: among the
space-separated class tokens, the first one beginning with the literal
prefix `language-` that is not immediately followed by an underscore gives
the label (the remainder after the prefix); otherwise the label is the
empty string. -/
def specLanguage (cl : String) : String :=
  match (jsSplitSpace cl).find?
      (fun t => jsStartsWith t "language-" && !jsStartsWith t "language-_") with
  | some t => jsSubstringFrom t ("language-".length)
  | none => ""

theorem findLanguage_eq_find (l : List String) :
    findLanguage l =
      match l.find? (fun t => jsStartsWith t "language-" && !jsStartsWith t "language-_") with
      | some t => jsSubstringFrom t 9
      | none => "" := by
  induction l with
  | nil => simp [findLanguage]
  | cons t rest ih =>
    by_cases h : (jsStartsWith t "language-" && !jsStartsWith t "language-_") = true
    · simp [findLanguage, h, List.find?_cons_of_pos]
    · rw [findLanguage, if_neg (by simp [h]), List.find?_cons_of_neg _ (by simp [h]), ih]

theorem specLanguage_eq_findLanguage (cl : String) :
    specLanguage cl = findLanguage (jsSplitSpace cl) := by
  have h9 : "language-".length = 9 := by decide
  rw [specLanguage, h9, findLanguage_eq_find]

theorem parseBlockNode_PRE (env : Externals) (attrs : Attrs) (children : List HNode) :
    parseBlockNode env (.elem "PRE" attrs children) =
      parseCodeBlock (.elem "PRE" attrs children) := by
  simp only [parseBlockNode, parseBlockElement, isElementNode, if_true]
  rw [if_neg (by decide), if_neg (by decide)]

/-- C5: A `pre` element is inspected only at its first child.  If that
child is not a `code` element the element yields no `CodeBlock` and
degrades via the unknown-element rule to its children under the current
context; if it is a `code` element, a `CodeBlock` is emitted whose
language is extracted from the code element's class tokens (`specLanguage`)
and whose text is the code element's flattened literal text. -/
theorem pre_code_block (env : Externals) (attrs : Attrs) (children rest : List HNode) :
    (firstChildIsCode children = false →
      parseBlockNode env (.elem "PRE" attrs children) = none ∧
      parseAnyNodes env (.elem "PRE" attrs children :: rest) =
        parseAnyNodes env children ++ parseAnyNodes env rest) ∧
    (∀ cattrs cch, children.head? = some (.elem "CODE" cattrs cch) →
      parseBlockNode env (.elem "PRE" attrs children) =
        some (Part.codeBlock (specLanguage ((getAttr cattrs "class").getD ""))
          (textContent (.elem "CODE" cattrs cch)))) := by
  constructor
  · intro hnc
    have hbe : parseBlockNode env (.elem "PRE" attrs children) = none := by
      rw [parseBlockNode_PRE, parseCodeBlock]
      simp only [childrenOf]
      cases h : children.head? with
      | none => simp
      | some c =>
        simp only [firstChildIsCode, h, beq_eq_false_iff_ne, ne_eq] at hnc
        simp [hnc]
    have hie : parseInlineNode env (.elem "PRE" attrs children) = none := by
      simp [parseInlineNode, parseInlineElement, isElementNode, basicInline]
    refine ⟨hbe, ?_⟩
    simp only [parseAnyNodes, parseTextParts, hie, hbe]
    simp [childrenOf, Option.orElse]
  · intro cattrs cch hhead
    rw [parseBlockNode_PRE, parseCodeBlock]
    simp only [childrenOf, hhead]
    rw [specLanguage_eq_findLanguage]
    simp [elementName, attrsOf]

/-- Witness for C5: a `pre` whose first child is text degrades to its
children; a `pre` holding a `code` child with class `language-hs` yields a
`CodeBlock` with language `hs` and the flattened text. -/
theorem pre_code_block_witness :
    parseBlockNode env0 (.elem "PRE" [] [HNode.text "raw"]) = none ∧
    parseBlockNode env0
        (.elem "PRE" [] [HNode.elem "CODE" [("class", "language-hs")] [HNode.text "main"]]) =
      some (Part.codeBlock "hs" "main") := by
  constructor
  · exact ((pre_code_block env0 [] [HNode.text "raw"] []).1 (by decide)).1
  · have h := (pre_code_block env0 []
      [HNode.elem "CODE" [("class", "language-hs")] [HNode.text "main"]] []).2
      [("class", "language-hs")] [HNode.text "main"] rfl
    rw [h]
    have h1 : specLanguage ((getAttr [("class", "language-hs")] "class").getD "") = "hs" := by
      decide
    have h2 : textContent (.elem "CODE" [("class", "language-hs")] [HNode.text "main"]) =
        "main" := by
      simp [textContent, textContentList]
    rw [h1, h2]

/-! ## C6 — images -/

/-- The amended best-effort dimension rule: the integer parsed (JavaScript
`parseInt`) from the attribute, absent when the attribute is missing,
unparsable, or parses to the falsy integer `0`. -/
def specDimension (v : Option String) : Option Int :=
  match v with
  | none => none
  | some s =>
    match jsParseInt s with
    | none => none
    | some n => if n = 0 then none else some n

theorem specDimension_eq_intOrNull (v : Option String) :
    specDimension v = intOrNull v := by
  cases v with
  | none => simp [specDimension, intOrNull, jsParseIntOpt]
  | some s =>
    simp only [specDimension, intOrNull, jsParseIntOpt]
    cases jsParseInt s <;> simp

theorem parseBlockNode_IMG (env : Externals) (attrs : Attrs) (children : List HNode) :
    parseBlockNode env (.elem "IMG" attrs children) =
      parseImage env (.elem "IMG" attrs children) := by
  simp only [parseBlockNode, parseBlockElement, isElementNode, if_true]
  rw [if_neg (by decide), if_neg (by decide), if_neg (by decide), if_neg (by decide)]

/-- C6, counterexample to the claim as stated: with a resolvable `src` and
the attribute `width="0"` — present, and parsing to the integer `0` — the
emitted `Image` part's width is nonetheless absent, because the source
computes `parseInt(...) || null` and `0` is falsy in JavaScript. -/
theorem image_zero_width_counterexample :
    parseBlockNode envImg (.elem "IMG" [("src", "mxc://a"), ("width", "0")] []) =
      some (Part.image "resolved-mxc://a" none none none none) ∧
    jsParseInt "0" = some 0 := by
  refine ⟨?_, by decide⟩
  have hsrc : (getAttr [("src", "mxc://a"), ("width", "0")] "src").getD "" = "mxc://a" := by
    decide
  have hw : intOrNull (getAttr [("src", "mxc://a"), ("width", "0")] "width") = none := by
    decide
  have hh : intOrNull (getAttr [("src", "mxc://a"), ("width", "0")] "height") = none := by
    decide
  have ha : getAttr [("src", "mxc://a"), ("width", "0")] "alt" = none := by decide
  have ht : getAttr [("src", "mxc://a"), ("width", "0")] "title" = none := by decide
  have happ : "resolved-" ++ "mxc://a" = "resolved-mxc://a" := by decide
  rw [parseBlockNode_IMG, parseImage]
  simp [attrsOf, hsrc, hw, hh, ha, ht, envImg, env0, happ]

/-- C6 (amended): For every image element: if the Media Resolver fails to
resolve its `src` (or `src` is absent), the element yields no `Image` part
and falls back to recursing into its children, so it effectively
disappears; if resolution succeeds, an `Image` part is emitted whose width
and height are best-effort parsed integers that are absent exactly when
the attribute is missing, fails to parse, or parses to the falsy integer
`0`, and whose alt and title are the raw optional attribute strings.

The two branches below partition every outcome of the resolver on the
source's effective src `src || ""`: a falsy result — `none`, or the
degenerate empty string, which the source's `if (!url)` also treats as
failure — yields no part and splices the children; a truthy result `url`
(`some url` with `url ≠ ""`) yields the `Image` part. -/
theorem image_resolution (env : Externals) (attrs : Attrs) (children rest : List HNode) :
    (env.mxcUrl ((getAttr attrs "src").getD "") = none ∨
        env.mxcUrl ((getAttr attrs "src").getD "") = some "" →
      parseBlockNode env (.elem "IMG" attrs children) = none ∧
      parseAnyNodes env (.elem "IMG" attrs children :: rest) =
        parseAnyNodes env children ++ parseAnyNodes env rest) ∧
    (∀ url, env.mxcUrl ((getAttr attrs "src").getD "") = some url → url ≠ "" →
      parseBlockNode env (.elem "IMG" attrs children) =
        some (Part.image url (specDimension (getAttr attrs "width"))
          (specDimension (getAttr attrs "height"))
          (getAttr attrs "alt") (getAttr attrs "title"))) := by
  constructor
  · intro hfail
    have hbe : parseBlockNode env (.elem "IMG" attrs children) = none := by
      rw [parseBlockNode_IMG, parseImage]
      cases hfail with
      | inl h => simp only [attrsOf, h]
      | inr h =>
        simp only [attrsOf, h]
        simp
    have hie : parseInlineNode env (.elem "IMG" attrs children) = none := by
      simp [parseInlineNode, parseInlineElement, isElementNode, basicInline]
    refine ⟨hbe, ?_⟩
    simp only [parseAnyNodes, parseTextParts, hie, hbe]
    simp [childrenOf, Option.orElse]
  · intro url hres hne
    rw [parseBlockNode_IMG, parseImage]
    simp only [attrsOf, hres]
    rw [if_neg hne, specDimension_eq_intOrNull, specDimension_eq_intOrNull]

/-- Externals whose media resolver returns the degenerate empty-string URL
for every reference. -/
def envImgEmpty : Externals :=
  { env0 with mxcUrl := fun _ => some "" }

/-- Witness for C6 at concrete inputs: an unresolvable image disappears,
an image whose resolution is the falsy empty string disappears too, and a
resolvable one is emitted with its parsed height. -/
theorem image_resolution_witness :
    parseAnyNodes env0 [HNode.elem "IMG" [("src", "https://x")] []] = [] ∧
    parseAnyNodes envImgEmpty [HNode.elem "IMG" [("src", "mxc://a")] []] = [] ∧
    parseBlockNode envImg (.elem "IMG" [("src", "mxc://a"), ("height", "5")] []) =
      some (Part.image "resolved-mxc://a" none (some 5) none none) := by
  refine ⟨?_, ?_, ?_⟩
  · have h := ((image_resolution env0 [("src", "https://x")] [] []).1 (Or.inl rfl)).2
    rw [h]
    simp [parseAnyNodes]
  · have h := ((image_resolution envImgEmpty [("src", "mxc://a")] [] []).1 (Or.inr rfl)).2
    rw [h]
    simp [parseAnyNodes]
  · have h := (image_resolution envImg [("src", "mxc://a"), ("height", "5")] [] []).2
      "resolved-mxc://a" (by decide) (by decide)
    rw [h]
    have h1 : specDimension (getAttr [("src", "mxc://a"), ("height", "5")] "width") = none := by
      decide
    have h2 : specDimension (getAttr [("src", "mxc://a"), ("height", "5")] "height") =
        some 5 := by
      decide
    have h3 : getAttr [("src", "mxc://a"), ("height", "5")] "alt" = none := by decide
    have h4 : getAttr [("src", "mxc://a"), ("height", "5")] "title" = none := by decide
    rw [h1, h2, h3, h4]

/-! ## C7 and C10 — anchors, pills and links -/

/-- The spec-level outcome of the mention-link recognizer on an href: the
user identifier it recognizes, where "recognized" requires the result
object to carry a truthy (present and non-empty) user id, matching the
JavaScript guard `pillData && pillData.userId`. -/
def recognizedUser (env : Externals) (href : String) : Option String :=
  match env.parsePillLink href with
  | some pd =>
    match pd.userId with
    | some uid => if uid = "" then none else some uid
    | none => none
  | none => none

theorem parseInlineNode_A (env : Externals) (attrs : Attrs) (children : List HNode) :
    parseInlineNode env (.elem "A" attrs children) =
      some (parseLink env (.elem "A" attrs children) (parseInlineNodes env children)) := by
  simp [parseInlineNode, parseInlineElement, isElementNode]

/-- C7: An anchor element's children are classified in inline context;
the mention-link recognizer is applied to its (present, non-empty) href
value, and a `Pill` part with the recognized user identifier, the href and
the children is emitted exactly when a user identifier is recognized,
otherwise a `Link` part with the href and the children. -/
theorem anchor_pill_or_link (env : Externals) (attrs : Attrs) (children : List HNode)
    (h : String) (hhref : getAttr attrs "href" = some h) (hne : h ≠ "") :
    parseInlineNode env (.elem "A" attrs children) =
      some (match recognizedUser env h with
        | some uid => Part.pill uid (some h) (parseInlineNodes env children)
        | none => Part.link (some h) (parseInlineNodes env children)) := by
  rw [parseInlineNode_A, parseLink]
  simp only [attrsOf, hhref, recognizedUser, if_neg hne]
  cases env.parsePillLink h with
  | none => simp
  | some pd =>
    cases hu : pd.userId with
    | none => simp [hu]
    | some uid =>
      by_cases he : uid = ""
      · simp [hu, he]
      · simp [hu, he]

/-- Witness for C7: with a recognizer that recognizes the matrix.to href
of the user `@a:b`, that anchor yields a pill and a foreign href yields a
link. -/
theorem anchor_pill_or_link_witness :
    parseInlineNode envPill (.elem "A" [("href", "https://matrix.to/#/@a:b")] [HNode.text "x"]) =
      some (Part.pill "@a:b" (some "https://matrix.to/#/@a:b")
        (parseInlineNodes envPill [HNode.text "x"])) ∧
    parseInlineNode envPill (.elem "A" [("href", "https://y")] [HNode.text "x"]) =
      some (Part.link (some "https://y") (parseInlineNodes envPill [HNode.text "x"])) := by
  constructor
  · have h := anchor_pill_or_link envPill [("href", "https://matrix.to/#/@a:b")]
      [HNode.text "x"] "https://matrix.to/#/@a:b" (by decide) (by decide)
    rw [h]
    have hr : recognizedUser envPill "https://matrix.to/#/@a:b" = some "@a:b" := by decide
    rw [hr]
  · have h := anchor_pill_or_link envPill [("href", "https://y")]
      [HNode.text "x"] "https://y" (by decide) (by decide)
    rw [h]
    have hr : recognizedUser envPill "https://y" = none := by decide
    rw [hr]

/-- C10: For an anchor whose `href` attribute is absent or empty, the
mention-link recognizer is never invoked — the emitted part does not
depend on the recognizer at all — and the element is emitted as a `Link`
part (never a `Pill`) carrying that href together with its
inline-classified children. -/
theorem anchor_without_href_is_link (lk : String → List (String × Bool))
    (pill pill2 : String → Option PillData) (mxc : String → Option String)
    (attrs : Attrs) (children : List HNode) (ps : List Part)
    (hhref : getAttr attrs "href" = none ∨ getAttr attrs "href" = some "") :
    parseInlineNode ⟨lk, pill, mxc⟩ (.elem "A" attrs children) =
      some (Part.link (getAttr attrs "href")
        (parseInlineNodes ⟨lk, pill, mxc⟩ children)) ∧
    parseLink ⟨lk, pill, mxc⟩ (.elem "A" attrs children) ps =
      parseLink ⟨lk, pill2, mxc⟩ (.elem "A" attrs children) ps := by
  cases hhref with
  | inl habs =>
    constructor
    · rw [parseInlineNode_A, parseLink]
      simp only [attrsOf, habs]
    · rw [parseLink, parseLink]
      simp only [attrsOf, habs]
  | inr hempty =>
    constructor
    · rw [parseInlineNode_A, parseLink]
      simp only [attrsOf, hempty]
      simp
    · rw [parseLink, parseLink]
      simp only [attrsOf, hempty]
      simp

/-- Witness for C10: an anchor with no attributes at all, under two
recognizers that disagree everywhere else. -/
theorem anchor_without_href_is_link_witness :
    parseInlineNode env0 (.elem "A" [] [HNode.text "x"]) =
      some (Part.link none (parseInlineNodes env0 [HNode.text "x"])) ∧
    parseLink env0 (.elem "A" [] [HNode.text "x"]) [] =
      parseLink envPill (.elem "A" [] [HNode.text "x"]) [] := by
  have h := anchor_without_href_is_link (fun s => [(s, false)]) (fun _ => none)
    envPill.parsePillLink (fun _ => none) [] [HNode.text "x"] [] (Or.inl (by decide))
  exact ⟨h.1, h.2⟩

/-! ## C2 — attribute non-interference

Only the fixed attribute set is ever read; two trees identical except in
attributes outside that set deserialize identically. -/

/-- The fixed set of attribute names the deserializer ever reads. -/
def allowedAttributes : List String :=
  ["href", "src", "width", "height", "alt", "title", "class", "start"]

/-- Attribute lists that agree on every allowed attribute name; they may
differ arbitrarily in every other attribute (presence and value alike). -/
def attrsAgree (a1 a2 : Attrs) : Bool :=
  allowedAttributes.all (fun name => getAttr a1 name == getAttr a2 name)

mutual

/-- Nodes that are identical except in attributes outside the allowed
set: equal text, equal tags, pointwise-agreeing children, and agreement on
every allowed attribute. -/
def nodeAgree : HNode → HNode → Bool
  | .text s1, .text s2 => s1 == s2
  | .elem t1 a1 c1, .elem t2 a2 c2 => t1 == t2 && attrsAgree a1 a2 && listAgree c1 c2
  | _, _ => false

/-- Pointwise agreement of node lists. -/
def listAgree : List HNode → List HNode → Bool
  | [], [] => true
  | n1 :: r1, n2 :: r2 => nodeAgree n1 n2 && listAgree r1 r2
  | _, _ => false

end

theorem attrsAgree_getAttr {a1 a2 : Attrs} (h : attrsAgree a1 a2 = true)
    (name : String) (hm : name ∈ allowedAttributes) :
    getAttr a1 name = getAttr a2 name := by
  simp only [attrsAgree, List.all_eq_true] at h
  exact beq_iff_eq.mp (h name hm)

theorem nodeAgree_elem_iff {t1 t2 : String} {a1 a2 : Attrs} {c1 c2 : List HNode} :
    nodeAgree (.elem t1 a1 c1) (.elem t2 a2 c2) = true ↔
      t1 = t2 ∧ attrsAgree a1 a2 = true ∧ listAgree c1 c2 = true := by
  simp [nodeAgree, Bool.and_eq_true, beq_iff_eq, and_assoc]

theorem listAgree_cons_iff {n1 n2 : HNode} {r1 r2 : List HNode} :
    listAgree (n1 :: r1) (n2 :: r2) = true ↔
      nodeAgree n1 n2 = true ∧ listAgree r1 r2 = true := by
  simp [listAgree]

theorem nodeAgree_elementName {n1 n2 : HNode} (h : nodeAgree n1 n2 = true) :
    elementName n1 = elementName n2 := by
  cases n1 <;> cases n2 <;> simp_all [nodeAgree, elementName, nodeAgree_elem_iff]

theorem nodeAgree_childrenOf {n1 n2 : HNode} (h : nodeAgree n1 n2 = true) :
    listAgree (childrenOf n1) (childrenOf n2) = true := by
  cases n1 <;> cases n2 <;>
    simp_all [nodeAgree, childrenOf, nodeAgree_elem_iff, listAgree]

theorem nodeAgree_getAttr {n1 n2 : HNode} (h : nodeAgree n1 n2 = true)
    (name : String) (hm : name ∈ allowedAttributes) :
    getAttr (attrsOf n1) name = getAttr (attrsOf n2) name := by
  cases n1 with
  | text s1 =>
    cases n2 with
    | text s2 => rfl
    | elem t2 a2 c2 => simp [nodeAgree] at h
  | elem t1 a1 c1 =>
    cases n2 with
    | text s2 => simp [nodeAgree] at h
    | elem t2 a2 c2 =>
      rw [nodeAgree_elem_iff] at h
      exact attrsAgree_getAttr h.2.1 name hm

theorem parseTextParts_agree (env : Externals) {n1 n2 : HNode}
    (h : nodeAgree n1 n2 = true) :
    parseTextParts env n1 = parseTextParts env n2 := by
  cases n1 <;> cases n2 <;> simp_all [nodeAgree, parseTextParts]

/-- The joint induction: on trees that agree outside the unread
attributes, every traversal function of the deserializer produces
identical output.  Stated with an explicit size bound to drive the
induction. -/
theorem agree_parse (env : Externals) : ∀ N : Nat,
    (∀ n1 n2, nodeSize n1 ≤ N → nodeAgree n1 n2 = true →
      textContent n1 = textContent n2 ∧
      parseCodeBlock n1 = parseCodeBlock n2 ∧
      parseList env n1 = parseList env n2 ∧
      parseInlineElement env n1 = parseInlineElement env n2 ∧
      parseInlineNode env n1 = parseInlineNode env n2 ∧
      parseBlockElement env n1 = parseBlockElement env n2 ∧
      parseBlockNode env n1 = parseBlockNode env n2) ∧
    (∀ l1 l2, listSize l1 ≤ N → listAgree l1 l2 = true →
      textContentList l1 = textContentList l2 ∧
      parseListItems env l1 = parseListItems env l2 ∧
      parseInlineNodes env l1 = parseInlineNodes env l2 ∧
      parseAnyNodes env l1 = parseAnyNodes env l2) := by
  intro N
  induction N with
  | zero =>
    constructor
    · intro n1 n2 hsize _
      exact absurd hsize (by have := nodeSize_pos n1; omega)
    · intro l1 l2 hsize hagree
      have hl1 : l1 = [] := by
        cases l1 with
        | nil => rfl
        | cons n r =>
          exfalso
          have := nodeSize_pos n
          simp [listSize] at hsize
          omega
      subst hl1
      have hl2 : l2 = [] := by
        cases l2 with
        | nil => rfl
        | cons n r => simp [listAgree] at hagree
      subst hl2
      exact ⟨rfl, rfl, rfl, rfl⟩
  | succ N ih =>
    have hnode : ∀ n1 n2, nodeSize n1 ≤ N + 1 → nodeAgree n1 n2 = true →
        textContent n1 = textContent n2 ∧
        parseCodeBlock n1 = parseCodeBlock n2 ∧
        parseList env n1 = parseList env n2 ∧
        parseInlineElement env n1 = parseInlineElement env n2 ∧
        parseInlineNode env n1 = parseInlineNode env n2 ∧
        parseBlockElement env n1 = parseBlockElement env n2 ∧
        parseBlockNode env n1 = parseBlockNode env n2 := by
      intro n1 n2 hsize hagree
      cases n1 with
      | text s1 =>
        cases n2 with
        | text s2 =>
          have hs : s1 = s2 := by simpa [nodeAgree] using hagree
          subst hs
          exact ⟨rfl, rfl, rfl, rfl, rfl, rfl, rfl⟩
        | elem t2 a2 c2 => simp [nodeAgree] at hagree
      | elem t1 a1 c1 =>
        cases n2 with
        | text s2 => simp [nodeAgree] at hagree
        | elem t2 a2 c2 =>
          rw [nodeAgree_elem_iff] at hagree
          obtain ⟨ht, hattrs, hch⟩ := hagree
          subst ht
          have hsz : listSize c1 ≤ N := by
            simp [nodeSize] at hsize
            omega
          obtain ⟨htcl, hitems, hinl, hany⟩ := ih.2 c1 c2 hsz hch
          have hhref := attrsAgree_getAttr hattrs "href"
            (by simp [allowedAttributes])
          have hsrc := attrsAgree_getAttr hattrs "src"
            (by simp [allowedAttributes])
          have hwidth := attrsAgree_getAttr hattrs "width"
            (by simp [allowedAttributes])
          have hheight := attrsAgree_getAttr hattrs "height"
            (by simp [allowedAttributes])
          have halt := attrsAgree_getAttr hattrs "alt"
            (by simp [allowedAttributes])
          have htitle := attrsAgree_getAttr hattrs "title"
            (by simp [allowedAttributes])
          have hstart := attrsAgree_getAttr hattrs "start"
            (by simp [allowedAttributes])
          have htc : textContent (.elem t1 a1 c1) = textContent (.elem t1 a2 c2) := by
            simp [textContent, htcl]
          have hcode : parseCodeBlock (.elem t1 a1 c1) = parseCodeBlock (.elem t1 a2 c2) := by
            rw [parseCodeBlock, parseCodeBlock]
            simp only [childrenOf]
            cases c1 with
            | nil =>
              cases c2 with
              | nil => rfl
              | cons m2 r2 => simp [listAgree] at hch
            | cons m1 r1 =>
              cases c2 with
              | nil => simp [listAgree] at hch
              | cons m2 r2 =>
                rw [listAgree_cons_iff] at hch
                obtain ⟨hm, hr⟩ := hch
                have hmsz : nodeSize m1 ≤ N := by
                  simp [listSize] at hsz
                  omega
                have hname := nodeAgree_elementName hm
                have hclassm := nodeAgree_getAttr hm "class"
                  (by simp [allowedAttributes])
                have htcm := (ih.1 m1 m2 hmsz hm).1
                simp only [List.head?_cons]
                rw [hname, hclassm, htcm]
          have hlist : parseList env (.elem t1 a1 c1) = parseList env (.elem t1 a2 c2) := by
            rw [parseList, parseList]
            simp only [elementName, attrsOf, childrenOf, hstart, hitems]
          have himg : parseImage env (.elem t1 a1 c1) = parseImage env (.elem t1 a2 c2) := by
            simp only [parseImage, attrsOf, hsrc, hwidth, hheight, halt, htitle]
          have hlnk : ∀ ps, parseLink env (.elem t1 a1 c1) ps =
              parseLink env (.elem t1 a2 c2) ps := by
            intro ps
            rw [parseLink, parseLink]
            simp only [attrsOf, hhref]
          have hie : parseInlineElement env (.elem t1 a1 c1) =
              parseInlineElement env (.elem t1 a2 c2) := by
            rw [parseInlineElement, parseInlineElement]
            by_cases hA : t1 = "A"
            · rw [if_pos hA, if_pos hA, hinl]
              exact congrArg some (hlnk _)
            · rw [if_neg hA, if_neg hA]
              by_cases hBR : t1 = "BR"
              · rw [if_pos hBR, if_pos hBR]
              · rw [if_neg hBR, if_neg hBR]
                by_cases hbi : basicInline.contains t1 = true
                · rw [if_pos hbi, if_pos hbi, hinl]
                · rw [if_neg hbi, if_neg hbi]
          have hin : parseInlineNode env (.elem t1 a1 c1) =
              parseInlineNode env (.elem t1 a2 c2) := by
            simp [parseInlineNode, isElementNode, hie]
          have hbe : parseBlockElement env (.elem t1 a1 c1) =
              parseBlockElement env (.elem t1 a2 c2) := by
            rw [parseBlockElement, parseBlockElement]
            by_cases hH : t1 = "H1" ∨ t1 = "H2" ∨ t1 = "H3" ∨ t1 = "H4" ∨
                t1 = "H5" ∨ t1 = "H6"
            · rw [if_pos hH, if_pos hH, hinl]
            · rw [if_neg hH, if_neg hH]
              by_cases hLst : t1 = "UL" ∨ t1 = "OL"
              · rw [if_pos hLst, if_pos hLst, hlist]
              · rw [if_neg hLst, if_neg hLst]
                by_cases hPRE : t1 = "PRE"
                · rw [if_pos hPRE, if_pos hPRE, hcode]
                · rw [if_neg hPRE, if_neg hPRE]
                  by_cases hHR : t1 = "HR"
                  · rw [if_pos hHR, if_pos hHR]
                  · rw [if_neg hHR, if_neg hHR]
                    by_cases hIMG : t1 = "IMG"
                    · rw [if_pos hIMG, if_pos hIMG, himg]
                    · rw [if_neg hIMG, if_neg hIMG]
                      by_cases hP : t1 = "P"
                      · rw [if_pos hP, if_pos hP, hinl]
                      · rw [if_neg hP, if_neg hP]
                        by_cases hbb : basicBlock.contains t1 = true
                        · rw [if_pos hbb, if_pos hbb, hany]
                        · rw [if_neg hbb, if_neg hbb]
          have hbn : parseBlockNode env (.elem t1 a1 c1) =
              parseBlockNode env (.elem t1 a2 c2) := by
            simp [parseBlockNode, isElementNode, hbe]
          exact ⟨htc, hcode, hlist, hie, hin, hbe, hbn⟩
    constructor
    · exact hnode
    · intro l1 l2 hsize hagree
      cases l1 with
      | nil =>
        have hl2 : l2 = [] := by
          cases l2 with
          | nil => rfl
          | cons n r => simp [listAgree] at hagree
        subst hl2
        exact ⟨rfl, rfl, rfl, rfl⟩
      | cons n1 r1 =>
        cases l2 with
        | nil => simp [listAgree] at hagree
        | cons n2 r2 =>
          rw [listAgree_cons_iff] at hagree
          obtain ⟨hn, hr⟩ := hagree
          have hposn := nodeSize_pos n1
          have hsz1 : nodeSize n1 ≤ N + 1 := by
            simp [listSize] at hsize
            omega
          have hszr : listSize r1 ≤ N := by
            simp [listSize] at hsize
            omega
          have hszc : listSize (childrenOf n1) ≤ N := by
            have := listSize_childrenOf_lt n1
            simp [listSize] at hsize
            omega
          obtain ⟨htcr, hitemsr, hinlr, hanyr⟩ := ih.2 r1 r2 hszr hr
          obtain ⟨htcc, hitemsc, hinlc, hanyc⟩ :=
            ih.2 (childrenOf n1) (childrenOf n2) hszc (nodeAgree_childrenOf hn)
          obtain ⟨htcn, hcoden, hlistn, hien, hinn, hben, hbnn⟩ := hnode n1 n2 hsz1 hn
          have htp := parseTextParts_agree env hn
          refine ⟨?_, ?_, ?_, ?_⟩
          · simp [textContentList, htcn, htcr]
          · simp only [parseListItems]
            rw [nodeAgree_elementName hn, hitemsr, hanyc]
          · simp only [parseInlineNodes]
            rw [htp, hinn, hinlr, hinlc]
          · simp only [parseAnyNodes]
            rw [htp, hinn, hbnn, hanyr, hanyc]

/-- C2: For every two input trees identical except in the values (or
presence) of attributes outside the fixed set
href, src, width, height, alt, title, class, start — as captured by
`listAgree` — deserialization yields the same part sequence: no attribute
outside that set is ever read, so no such attribute can affect or appear
in the output. -/
theorem attribute_noninterference (env : Externals) (l1 l2 : List HNode)
    (h : listAgree l1 l2 = true) :
    parseAnyNodes env l1 = parseAnyNodes env l2 :=
  ((agree_parse env (listSize l1)).2 l1 l2 le_rfl h).2.2.2

/-- Witness for C2: an `em` element carrying an `onmouseover` attribute
deserializes exactly as the same element without it. -/
theorem attribute_noninterference_witness :
    listAgree [HNode.elem "EM" [("onmouseover", "alert(1)")] [HNode.text "Hello"]]
      [HNode.elem "EM" [] [HNode.text "Hello"]] = true ∧
    parseAnyNodes env0 [HNode.elem "EM" [("onmouseover", "alert(1)")] [HNode.text "Hello"]] =
      parseAnyNodes env0 [HNode.elem "EM" [] [HNode.text "Hello"]] :=
  ⟨by decide, attribute_noninterference env0 _ _ (by decide)⟩

end HtmlDeserializer
